import Mathlib

/-!
Verification of the guck core against its specification.

The two subsystems under study are the review-state store (src/state.rs,
`StateManager`) and the daemon lifecycle manager (src/daemon.rs,
`DaemonManager`).  Rust `HashMap`s are embedded as association lists with
first-occurrence lookup; `Vec` becomes `List`; fallible operations return
`Except String`; the ambient clock and the OS liveness probe are passed in
as explicit parameters.  Filesystem writes are modelled by a `saveOk`
parameter: `saveOk = true` means `fs::write` succeeded, `false` means it
failed, and the operation result mirrors the Rust control flow (the
in-memory mutation happens before `self.save()?`, exactly as in the source).
-/

/-- Lookup of the value stored under key `k`: the first entry whose key
equals `k`, as in a map with unique keys. -/
def lookupKey [DecidableEq α] : List (α × β) → α → Option β
  | [], _ => none
  | e :: es, k => if e.1 = k then some e.2 else lookupKey es k

/-- Apply `f` to the value stored under key `k` (the first entry with that
key); leave the map unchanged when the key is absent.  This embeds a Rust
`get_mut` chain that mutates in place. -/
def setFirst [DecidableEq α] : List (α × β) → α → (β → β) → List (α × β)
  | [], _, _ => []
  | e :: es, k, f => if e.1 = k then (e.1, f e.2) :: es else e :: setFirst es k f

/-- Embeds `map.entry(k).or_insert_with(|| d)` followed by an in-place
mutation `f` of the slot: modify the existing value when the key is
present, otherwise insert `f d` under `k`. -/
def updateEntry [DecidableEq α] (m : List (α × β)) (k : α) (d : β) (f : β → β) :
    List (α × β) :=
  match lookupKey m k with
  | some _ => setFirst m k f
  | none => m ++ [(k, f d)]

/-- Remove every entry stored under key `k`, embedding `HashMap::remove`
(on a map with unique keys the two coincide). -/
def removeKey [DecidableEq α] : List (α × β) → α → List (α × β)
  | [], _ => []
  | e :: es, k => if e.1 = k then removeKey es k else e :: removeKey es k

/-- Comment record, from `struct Comment` in src/state.rs. -/
structure Comment where
  id : String
  file_path : String
  line_number : Option Nat
  text : String
  timestamp : Nat
  branch : String
  commit : String
  resolved : Bool
deriving DecidableEq, Repr

/-- Per-scope review state, from `struct RepoState` in src/state.rs. -/
structure RepoState where
  viewed_files : List String
  comments : List Comment
deriving DecidableEq, Repr

/-- The `RepoState::default()` value. -/
def RepoState.empty : RepoState := ⟨[], []⟩

/-- The nested persisted structure, from `struct ViewedState` in
src/state.rs: repo path to branch to commit to `RepoState`. -/
structure ViewedState where
  repos : List (String × List (String × List (String × RepoState)))
deriving DecidableEq, Repr

/-- Navigation to the `RepoState` of one (repo, branch, commit) scope,
as performed by the `get`/`and_then` chains in src/state.rs. -/
def lookupScope (st : ViewedState) (repo branch commit : String) :
    Option RepoState :=
  (lookupKey st.repos repo).bind fun bm =>
    (lookupKey bm branch).bind fun cm => lookupKey cm commit

/-- Pure state transition of `StateManager::mark_file_viewed`
(src/state.rs lines 74-99): create the scope levels on demand and push the
path onto `viewed_files` unless already present. -/
def markFileViewedState (st : ViewedState) (repo branch commit fp : String) :
    ViewedState :=
  ⟨updateEntry st.repos repo [] fun bm =>
    updateEntry bm branch [] fun cm =>
      updateEntry cm commit RepoState.empty fun rs =>
        if fp ∈ rs.viewed_files then rs
        else { rs with viewed_files := rs.viewed_files ++ [fp] }⟩

/-- Pure state transition of `StateManager::unmark_file_viewed`
(src/state.rs lines 101-118): a `get_mut` chain, then
`retain(|f| f != file_path)`. -/
def unmarkFileViewedState (st : ViewedState) (repo branch commit fp : String) :
    ViewedState :=
  ⟨setFirst st.repos repo fun bm =>
    setFirst bm branch fun cm =>
      setFirst cm commit fun rs =>
        { rs with viewed_files := rs.viewed_files.filter fun f => f ≠ fp }⟩

/-- Boolean result of `StateManager::is_file_viewed`
(src/state.rs lines 57-72). -/
def isFileViewedState (st : ViewedState) (repo branch commit fp : String) :
    Bool :=
  ((lookupScope st repo branch commit).map fun rs =>
    decide (fp ∈ rs.viewed_files)).getD false

/-- Comment id format of `StateManager::add_comment`:
`format!("{}-{}", timestamp, repo_state.comments.len())`. -/
def mkCommentId (timestamp idx : Nat) : String :=
  toString timestamp ++ "-" ++ toString idx

/-- Pure state transition of `StateManager::add_comment`
(src/state.rs lines 120-162), with the clock reading (seconds since the
epoch) passed in as `now`.  The comment is built from the slot of the
scope at the moment of insertion (`RepoState::default()` when the scope is
freshly created) and pushed onto that slot. -/
def addCommentState (st : ViewedState) (repo branch commit fp : String)
    (ln : Option Nat) (text : String) (now : Nat) : Comment × ViewedState :=
  let rs0 := (lookupScope st repo branch commit).getD RepoState.empty
  let comment : Comment :=
    { id := mkCommentId now rs0.comments.length
      file_path := fp
      line_number := ln
      text := text
      timestamp := now
      branch := branch
      commit := commit
      resolved := false }
  (comment,
    ⟨updateEntry st.repos repo [] fun bm =>
      updateEntry bm branch [] fun cm =>
        updateEntry cm commit RepoState.empty fun rs =>
          { rs with comments := rs.comments ++ [comment] }⟩)

/-- Set `resolved := true` on the first comment whose id matches, as
`comments.iter_mut().find(|c| c.id == comment_id)` does. -/
def resolveFirst : List Comment → String → List Comment
  | [], _ => []
  | c :: cs, cid =>
    if c.id = cid then { c with resolved := true } :: cs
    else c :: resolveFirst cs cid

/-- Pure state transition of `StateManager::resolve_comment`
(src/state.rs lines 194-214): a `get_mut` chain, then resolve the first
comment with the given id. -/
def resolveCommentState (st : ViewedState) (repo branch commit cid : String) :
    ViewedState :=
  ⟨setFirst st.repos repo fun bm =>
    setFirst bm branch fun cm =>
      setFirst cm commit fun rs =>
        { rs with comments := resolveFirst rs.comments cid }⟩

/-- Result of `StateManager::get_comments` (src/state.rs lines 164-192):
all comments of the scope, filtered by file path when a filter is given;
empty when the scope is absent. -/
def getCommentsState (st : ViewedState) (repo branch commit : String)
    (fp : Option String) : List Comment :=
  match lookupScope st repo branch commit with
  | none => []
  | some rs =>
    match fp with
    | some f => rs.comments.filter fun c => c.file_path = f
    | none => rs.comments

/-- The in-memory manager, from `struct StateManager` (the `state_file`
path plays no role in the store semantics and is elided). -/
structure StateManager where
  state : ViewedState
deriving DecidableEq, Repr

/-- Result of `StateManager::save` (src/state.rs lines 216-221) under the
ambient filesystem condition `saveOk`. -/
def saveResult (saveOk : Bool) : Except String Unit :=
  if saveOk then Except.ok () else Except.error "Failed to write state file"

/-- The `StateManager::is_file_viewed` method: always `Ok`. -/
def is_file_viewed (sm : StateManager) (repo branch commit fp : String) :
    Except String Bool :=
  Except.ok (isFileViewedState sm.state repo branch commit fp)

/-- The `StateManager::mark_file_viewed` method: the in-memory mutation
happens first, then `self.save()?` decides the returned result.  The pair
is (returned result, the manager after the call). -/
def mark_file_viewed (saveOk : Bool) (sm : StateManager)
    (repo branch commit fp : String) : Except String Unit × StateManager :=
  (saveResult saveOk, ⟨markFileViewedState sm.state repo branch commit fp⟩)

/-- The `StateManager::unmark_file_viewed` method. -/
def unmark_file_viewed (saveOk : Bool) (sm : StateManager)
    (repo branch commit fp : String) : Except String Unit × StateManager :=
  (saveResult saveOk, ⟨unmarkFileViewedState sm.state repo branch commit fp⟩)

/-- The `StateManager::add_comment` method with the clock reading already
converted to seconds; returns the created comment on save success, the
save error otherwise, the mutation having happened either way. -/
def add_comment (saveOk : Bool) (sm : StateManager)
    (repo branch commit fp : String) (ln : Option Nat) (text : String)
    (now : Nat) : Except String Comment × StateManager :=
  let r := addCommentState sm.state repo branch commit fp ln text now
  ((saveResult saveOk).map fun _ => r.1, ⟨r.2⟩)

/-- The `StateManager::resolve_comment` method. -/
def resolve_comment (saveOk : Bool) (sm : StateManager)
    (repo branch commit cid : String) : Except String Unit × StateManager :=
  (saveResult saveOk, ⟨resolveCommentState sm.state repo branch commit cid⟩)

/-- The `StateManager::get_comments` method: always `Ok`. -/
def get_comments (sm : StateManager) (repo branch commit : String)
    (fp : Option String) : Except String (List Comment) :=
  Except.ok (getCommentsState sm.state repo branch commit fp)

/-- Result of `SystemTime::now().duration_since(UNIX_EPOCH)` given the
clock reading `now` in signed seconds relative to the epoch: an error
exactly when the clock reads earlier than the epoch. -/
def duration_since_epoch (now : Int) : Except String Nat :=
  if now < 0 then Except.error "SystemTimeError" else Except.ok now.toNat

/-- The `StateManager::add_comment` method including its timestamp
computation: `none` models the panic of the `.unwrap()` on
`duration_since(UNIX_EPOCH)` when the clock reads before the epoch. -/
def add_comment_clocked (saveOk : Bool) (sm : StateManager)
    (repo branch commit fp : String) (ln : Option Nat) (text : String)
    (clock : Int) : Option (Except String Comment × StateManager) :=
  match duration_since_epoch clock with
  | Except.error _ => none
  | Except.ok t => some (add_comment saveOk sm repo branch commit fp ln text t)

/-- Daemon metadata, from `struct DaemonInfo` in src/daemon.rs. -/
structure DaemonInfo where
  pid : Nat
  port : Nat
  repo_path : String
  base_branch : String
deriving DecidableEq, Repr

/-- The registry, from `struct DaemonRegistry` in src/daemon.rs: a map
from repo path to daemon metadata. -/
structure DaemonRegistry where
  daemons : List (String × DaemonInfo)
deriving DecidableEq, Repr

/-- The `used_ports` vector computed by
`DaemonManager::find_available_port`: the ports of all registered
daemons. -/
def usedPorts (reg : DaemonRegistry) : List Nat :=
  reg.daemons.map fun e => e.2.port

/-- The `for port in 3000..4000` loop body of `find_available_port`:
return the first port of the candidate list not contained in `used`,
the bail-out error when the list is exhausted. -/
def scanPorts (used : List Nat) : List Nat → Except String Nat
  | [] => Except.error "No available ports in range 3000-4000"
  | p :: ps => if p ∈ used then scanPorts used ps else Except.ok p

/-- The `DaemonManager::find_available_port` method (src/daemon.rs lines
59-71): scan ports 3000 to 3999 in ascending order against the ports
recorded in the registry. -/
def find_available_port (reg : DaemonRegistry) : Except String Nat :=
  scanPorts (usedPorts reg) (List.range' 3000 1000)

/-- POSIX signal number of SIGTERM, the value of
`nix::sys::signal::Signal::SIGTERM`. -/
def SIGTERM : Nat := 15

/-- The null signal of kill(2): signal number 0 performs a pure existence
and permission check and delivers nothing to the target. -/
def NULL_SIGNAL : Nat := 0

/-- The signal number that `DaemonManager::is_daemon_running`
(src/daemon.rs lines 97-124) passes to `kill` on the unix branch: the
source calls `kill(Pid::from_raw(pid as i32), Signal::SIGTERM)`. -/
def is_daemon_running_signal : Nat := SIGTERM

/-- The `DaemonManager::cleanup_stale_daemons` method (src/daemon.rs lines
149-165) with the liveness probe abstracted as the oracle `alive`:
collect the repo paths of the entries whose pid fails the probe, remove
them, and call `save_registry` once.  The second component counts the
`save_registry` calls performed. -/
def cleanup_stale_daemons (alive : Nat → Bool) (reg : DaemonRegistry) :
    DaemonRegistry × Nat :=
  let to_remove := (reg.daemons.filter fun e => !alive e.2.pid).map fun e => e.1
  let daemons := to_remove.foldl (fun m k => removeKey m k) reg.daemons
  (⟨daemons⟩, 1)

/-- One mutating operation of the Review State Store, carrying the ambient
save success flag and, for add, the clock reading.  The read operations
(`is_file_viewed`, `get_comments`) take `&self` in the source and cannot
change the state, so the mutating operations are the complete set of state
transitions. -/
inductive StoreOp where
  | mark (saveOk : Bool) (repo branch commit fp : String)
  | unmark (saveOk : Bool) (repo branch commit fp : String)
  | add (saveOk : Bool) (repo branch commit fp : String) (ln : Option Nat)
      (tx : String) (now : Nat)
  | resolve (saveOk : Bool) (repo branch commit cid : String)

/-- Apply one store operation to the manager, keeping the post-call
manager (the operation result is irrelevant to the state evolution). -/
def applyOp (sm : StateManager) : StoreOp → StateManager
  | StoreOp.mark s r b c fp => (mark_file_viewed s sm r b c fp).2
  | StoreOp.unmark s r b c fp => (unmark_file_viewed s sm r b c fp).2
  | StoreOp.add s r b c fp ln tx now => (add_comment s sm r b c fp ln tx now).2
  | StoreOp.resolve s r b c cid => (resolve_comment s sm r b c cid).2

/-- Apply a sequence of store operations in order. -/
def applyOps (sm : StateManager) (ops : List StoreOp) : StateManager :=
  ops.foldl applyOp sm

/-- Comment evolution in one or more steps: either unchanged, or equal up
to the resolved flag having been switched to true. -/
def commentLE (x y : Comment) : Prop :=
  y = x ∨ y = { x with resolved := true }

/-- List evolution for comment lists: every comment of the old list is
still present at its index in the new list, evolved by `commentLE` only.
This expresses both that comments are never deleted and that the resolved
flag never reverts from true to false. -/
def commentsEvolve (l l' : List Comment) : Prop :=
  ∀ i (h : i < l.length),
    ∃ h' : i < l'.length, commentLE (l.get ⟨i, h⟩) (l'.get ⟨i, h'⟩)

/-- The ordered comment list of one scope, empty when the scope is
absent. -/
def scopeComments (st : ViewedState) (r b c : String) : List Comment :=
  ((lookupScope st r b c).map RepoState.comments).getD []

/-- Fixture: a registry with one daemon occupying port 3000. -/
def regW : DaemonRegistry := ⟨[("repoA", ⟨41, 3000, "repoA", "main"⟩)]⟩

/-- Fixture: a registry with daemons of pid 1 and pid 2. -/
def regW2 : DaemonRegistry :=
  ⟨[("a", ⟨1, 3000, "a", "main"⟩), ("b", ⟨2, 3001, "b", "main"⟩)]⟩

/-- Fixture: a manager whose only scope ("r", "b", "c") has viewed file
"g" and no comments. -/
def smW : StateManager := ⟨⟨[("r", [("b", [("c", ⟨["g"], []⟩)])])]⟩⟩

/-- Fixture: a manager with one comment of id "7-0" on file "a.txt". -/
def smC : StateManager :=
  ⟨⟨[("r", [("b", [("c", ⟨[],
    [⟨"7-0", "a.txt", some 3, "needs a test", 7, "b", "c", false⟩]⟩)])])]⟩⟩

theorem lookupKey_setFirst_self [DecidableEq α] (m : List (α × β)) (k : α)
    (f : β → β) : lookupKey (setFirst m k f) k = (lookupKey m k).map f := by
  induction m with
  | nil => rfl
  | cons e es ih =>
    by_cases h : e.1 = k
    · simp [setFirst, lookupKey, h]
    · simp [setFirst, lookupKey, h, ih]

theorem lookupKey_setFirst_ne [DecidableEq α] (m : List (α × β)) (k k' : α)
    (f : β → β) (hne : k' ≠ k) :
    lookupKey (setFirst m k f) k' = lookupKey m k' := by
  induction m with
  | nil => rfl
  | cons e es ih =>
    by_cases h : e.1 = k
    · have : ¬ e.1 = k' := by rw [h]; exact fun hk => hne hk.symm
      simp [setFirst, lookupKey, h, this, Ne.symm hne]
    · by_cases h' : e.1 = k' <;> simp [setFirst, lookupKey, h, h', hne, ih]

theorem lookupKey_append_of_none [DecidableEq α] (m l : List (α × β)) (k : α)
    (h : lookupKey m k = none) : lookupKey (m ++ l) k = lookupKey l k := by
  induction m with
  | nil => rfl
  | cons e es ih =>
    by_cases he : e.1 = k
    · simp [lookupKey, he] at h
    · simp only [lookupKey, he, if_false] at h
      simpa [lookupKey, he] using ih h

theorem lookupKey_append_single_ne [DecidableEq α] (m : List (α × β))
    (k k' : α) (v : β) (hne : k' ≠ k) :
    lookupKey (m ++ [(k, v)]) k' = lookupKey m k' := by
  induction m with
  | nil => simp [lookupKey, Ne.symm hne]
  | cons e es ih => by_cases he : e.1 = k' <;> simp [lookupKey, he, ih]

theorem setFirst_setFirst [DecidableEq α] (m : List (α × β)) (k : α)
    (f g : β → β) :
    setFirst (setFirst m k f) k g = setFirst m k fun v => g (f v) := by
  induction m with
  | nil => rfl
  | cons e es ih => by_cases he : e.1 = k <;> simp [setFirst, he, ih]

theorem setFirst_comp_eq [DecidableEq α] (m : List (α × β)) (k : α)
    (f g h : β → β) (hfg : ∀ v, g (f v) = h v) :
    setFirst (setFirst m k f) k g = setFirst m k h := by
  rw [setFirst_setFirst]
  congr 1
  funext v
  exact hfg v

theorem setFirst_eq_self [DecidableEq α] (m : List (α × β)) (k : α)
    (f : β → β) (h : ∀ v, lookupKey m k = some v → f v = v) :
    setFirst m k f = m := by
  induction m with
  | nil => rfl
  | cons e es ih =>
    by_cases he : e.1 = k
    · have hfix := h e.2 (by simp [lookupKey, he])
      simp [setFirst, he, hfix, Prod.ext_iff]
    · simp only [setFirst, he, if_false]
      rw [ih fun v hv => h v (by simp [lookupKey, he, hv])]

theorem updateEntry_of_lookup [DecidableEq α] (m : List (α × β)) (k : α)
    (d : β) (f : β → β) (v : β) (h : lookupKey m k = some v) :
    updateEntry m k d f = setFirst m k f := by
  unfold updateEntry
  rw [h]

theorem updateEntry_of_none [DecidableEq α] (m : List (α × β)) (k : α)
    (d : β) (f : β → β) (h : lookupKey m k = none) :
    updateEntry m k d f = m ++ [(k, f d)] := by
  unfold updateEntry
  rw [h]

theorem lookupKey_updateEntry_self [DecidableEq α] (m : List (α × β)) (k : α)
    (d : β) (f : β → β) :
    lookupKey (updateEntry m k d f) k = some (f ((lookupKey m k).getD d)) := by
  cases hm : lookupKey m k with
  | some v =>
    rw [updateEntry_of_lookup m k d f v hm, lookupKey_setFirst_self, hm]
    rfl
  | none =>
    rw [updateEntry_of_none m k d f hm, lookupKey_append_of_none m _ k hm]
    simp [lookupKey]

theorem lookupKey_updateEntry_ne [DecidableEq α] (m : List (α × β)) (k k' : α)
    (d : β) (f : β → β) (hne : k' ≠ k) :
    lookupKey (updateEntry m k d f) k' = lookupKey m k' := by
  cases hm : lookupKey m k with
  | some v =>
    rw [updateEntry_of_lookup m k d f v hm, lookupKey_setFirst_ne m k k' f hne]
  | none =>
    rw [updateEntry_of_none m k d f hm,
      lookupKey_append_single_ne m k k' (f d) hne]

theorem updateEntry_eq_self [DecidableEq α] (m : List (α × β)) (k : α)
    (d : β) (f : β → β) (v : β) (h : lookupKey m k = some v) (hf : f v = v) :
    updateEntry m k d f = m := by
  rw [updateEntry_of_lookup m k d f v h]
  refine setFirst_eq_self m k f fun w hw => ?_
  rw [h] at hw
  injection hw with e
  rw [← e]
  exact hf

/-- Effect of the nested `entry(..).or_insert_with` chain shared by
`mark_file_viewed` and `add_comment` on the updated scope itself. -/
theorem lookupScope_update3 (st : ViewedState) (r b c : String)
    (f : RepoState → RepoState) :
    lookupScope
      ⟨updateEntry st.repos r [] fun bm =>
        updateEntry bm b [] fun cm =>
          updateEntry cm c RepoState.empty f⟩ r b c
      = some (f ((lookupScope st r b c).getD RepoState.empty)) := by
  unfold lookupScope
  cases h1 : lookupKey st.repos r with
  | none => simp [lookupKey_updateEntry_self, h1, lookupKey]
  | some bm =>
    cases h2 : lookupKey bm b with
    | none => simp [lookupKey_updateEntry_self, h1, h2, lookupKey]
    | some cm => simp [lookupKey_updateEntry_self, h1, h2]

/-- The nested `entry(..).or_insert_with` chain leaves every other scope
unchanged. -/
theorem lookupScope_update3_ne (st : ViewedState) (r b c : String)
    (f : RepoState → RepoState) (r' b' c' : String)
    (hne : ¬(r' = r ∧ b' = b ∧ c' = c)) :
    lookupScope
      ⟨updateEntry st.repos r [] fun bm =>
        updateEntry bm b [] fun cm =>
          updateEntry cm c RepoState.empty f⟩ r' b' c'
      = lookupScope st r' b' c' := by
  unfold lookupScope
  by_cases hr : r' = r
  · subst hr
    by_cases hb : b' = b
    · subst hb
      have hc : c' ≠ c := fun hcc => hne ⟨rfl, rfl, hcc⟩
      cases h1 : lookupKey st.repos r' with
      | none =>
        simp [lookupKey_updateEntry_self, h1, lookupKey, Ne.symm hc,
          lookupKey_updateEntry_ne _ _ _ _ _ hc]
      | some bm =>
        cases h2 : lookupKey bm b' with
        | none =>
          simp [lookupKey_updateEntry_self, h1, h2, lookupKey, Ne.symm hc,
            lookupKey_updateEntry_ne _ _ _ _ _ hc]
        | some cm =>
          simp [lookupKey_updateEntry_self, h1, h2, Ne.symm hc,
            lookupKey_updateEntry_ne _ _ _ _ _ hc]
    · cases h1 : lookupKey st.repos r' with
      | none =>
        simp [lookupKey_updateEntry_self, h1, lookupKey, Ne.symm hb,
          lookupKey_updateEntry_ne _ _ _ _ _ hb]
      | some bm =>
        simp [lookupKey_updateEntry_self, h1, Ne.symm hb,
          lookupKey_updateEntry_ne _ _ _ _ _ hb]
  · rw [lookupKey_updateEntry_ne _ _ _ _ _ hr]

/-- Effect of the nested `get_mut` chain shared by `unmark_file_viewed`
and `resolve_comment` on the addressed scope itself. -/
theorem lookupScope_set3 (st : ViewedState) (r b c : String)
    (f : RepoState → RepoState) :
    lookupScope
      ⟨setFirst st.repos r fun bm =>
        setFirst bm b fun cm => setFirst cm c f⟩ r b c
      = (lookupScope st r b c).map f := by
  unfold lookupScope
  cases h1 : lookupKey st.repos r with
  | none => simp [lookupKey_setFirst_self, h1]
  | some bm =>
    cases h2 : lookupKey bm b with
    | none => simp [lookupKey_setFirst_self, h1, h2]
    | some cm => simp [lookupKey_setFirst_self, h1, h2]

/-- The nested `get_mut` chain leaves every other scope unchanged. -/
theorem lookupScope_set3_ne (st : ViewedState) (r b c : String)
    (f : RepoState → RepoState) (r' b' c' : String)
    (hne : ¬(r' = r ∧ b' = b ∧ c' = c)) :
    lookupScope
      ⟨setFirst st.repos r fun bm =>
        setFirst bm b fun cm => setFirst cm c f⟩ r' b' c'
      = lookupScope st r' b' c' := by
  unfold lookupScope
  by_cases hr : r' = r
  · subst hr
    by_cases hb : b' = b
    · subst hb
      have hc : c' ≠ c := fun hcc => hne ⟨rfl, rfl, hcc⟩
      cases h1 : lookupKey st.repos r' with
      | none => simp [lookupKey_setFirst_self, h1]
      | some bm =>
        cases h2 : lookupKey bm b' with
        | none => simp [lookupKey_setFirst_self, h1, h2]
        | some cm =>
          simp [lookupKey_setFirst_self, h1, h2,
            lookupKey_setFirst_ne _ _ _ _ hc]
    · cases h1 : lookupKey st.repos r' with
      | none => simp [lookupKey_setFirst_self, h1]
      | some bm =>
        simp [lookupKey_setFirst_self, h1, lookupKey_setFirst_ne _ _ _ _ hb]
  · rw [lookupKey_setFirst_ne _ _ _ _ hr]

theorem setFirst_append_single [DecidableEq α] (m : List (α × β)) (k : α)
    (v : β) (g : β → β) (h : lookupKey m k = none) :
    setFirst (m ++ [(k, v)]) k g = m ++ [(k, g v)] := by
  induction m with
  | nil => simp [setFirst]
  | cons e es ih =>
    by_cases he : e.1 = k
    · simp [lookupKey, he] at h
    · simp only [lookupKey, he, if_false] at h
      simp [setFirst, he, ih h]

theorem updateEntry_updateEntry [DecidableEq α] (m : List (α × β)) (k : α)
    (d : β) (f g : β → β) :
    updateEntry (updateEntry m k d f) k d g
      = updateEntry m k d fun v => g (f v) := by
  cases hm : lookupKey m k with
  | some v =>
    rw [updateEntry_of_lookup m k d f v hm]
    have h2 : lookupKey (setFirst m k f) k = some (f v) := by
      rw [lookupKey_setFirst_self, hm]; rfl
    rw [updateEntry_of_lookup _ k d g _ h2, setFirst_setFirst,
      updateEntry_of_lookup m k d _ v hm]
  | none =>
    rw [updateEntry_of_none m k d f hm]
    have h2 : lookupKey (m ++ [(k, f d)]) k = some (f d) := by
      rw [lookupKey_append_of_none m _ k hm]; simp [lookupKey]
    rw [updateEntry_of_lookup _ k d g _ h2, updateEntry_of_none m k d _ hm,
      setFirst_append_single m k (f d) g hm]

theorem update3_comp (st : ViewedState) (r b c : String)
    (f g h : RepoState → RepoState) (hfg : ∀ rs, g (f rs) = h rs) :
    (⟨updateEntry
        (updateEntry st.repos r [] fun bm =>
          updateEntry bm b [] fun cm => updateEntry cm c RepoState.empty f)
        r [] fun bm =>
          updateEntry bm b [] fun cm =>
            updateEntry cm c RepoState.empty g⟩ : ViewedState)
      = ⟨updateEntry st.repos r [] fun bm =>
          updateEntry bm b [] fun cm => updateEntry cm c RepoState.empty h⟩ := by
  congr 1
  rw [updateEntry_updateEntry]
  congr 1
  funext bm
  try simp only []
  rw [updateEntry_updateEntry]
  congr 1
  funext cm
  try simp only []
  rw [updateEntry_updateEntry]
  congr 1
  funext rs
  exact hfg rs

theorem set3_comp (st : ViewedState) (r b c : String)
    (f g h : RepoState → RepoState) (hfg : ∀ rs, g (f rs) = h rs) :
    (⟨setFirst
        (setFirst st.repos r fun bm =>
          setFirst bm b fun cm => setFirst cm c f)
        r fun bm => setFirst bm b fun cm => setFirst cm c g⟩ : ViewedState)
      = ⟨setFirst st.repos r fun bm =>
          setFirst bm b fun cm => setFirst cm c h⟩ := by
  congr 1
  rw [setFirst_setFirst]
  congr 1
  funext bm
  try simp only []
  rw [setFirst_setFirst]
  congr 1
  funext cm
  try simp only []
  rw [setFirst_setFirst]
  congr 1
  funext rs
  exact hfg rs

theorem resolveFirst_length (l : List Comment) (cid : String) :
    (resolveFirst l cid).length = l.length := by
  induction l with
  | nil => rfl
  | cons x xs ih =>
    by_cases h : x.id = cid <;> simp [resolveFirst, h, ih]

theorem resolveFirst_idem (l : List Comment) (cid : String) :
    resolveFirst (resolveFirst l cid) cid = resolveFirst l cid := by
  induction l with
  | nil => rfl
  | cons x xs ih =>
    by_cases h : x.id = cid
    · simp [resolveFirst, h]
    · simp [resolveFirst, h, ih]

theorem resolveFirst_of_not_mem (l : List Comment) (cid : String)
    (h : ∀ cm ∈ l, cm.id ≠ cid) : resolveFirst l cid = l := by
  induction l with
  | nil => rfl
  | cons x xs ih =>
    have hx : ¬ x.id = cid := h x (List.mem_cons_self x xs)
    simp only [resolveFirst, hx, if_false]
    rw [ih fun cm hm => h cm (List.mem_cons_of_mem x hm)]

theorem resolveFirst_getElem (l : List Comment) (cid : String)
    (hnd : (l.map Comment.id).Nodup) :
    ∀ i : Nat,
      (resolveFirst l cid)[i]?
        = (l[i]?).map fun cm =>
            if cm.id = cid then { cm with resolved := true } else cm := by
  induction l with
  | nil => intro i; rfl
  | cons x xs ih =>
    rw [List.map_cons, List.nodup_cons] at hnd
    intro i
    by_cases hx : x.id = cid
    · have hrw : resolveFirst (x :: xs) cid = { x with resolved := true } :: xs := by
        simp [resolveFirst, hx]
      rw [hrw]
      cases i with
      | zero => simp [hx]
      | succ j =>
        simp only [List.getElem?_cons_succ]
        cases hxj : xs[j]? with
        | none => rfl
        | some cm =>
          have hmem : cm ∈ xs := by
            have := List.getElem?_eq_some_iff.mp hxj
            obtain ⟨hb, hv⟩ := this
            exact hv ▸ List.getElem_mem hb
          have hne : ¬ cm.id = cid := fun heq =>
            hnd.1 (hx ▸ heq ▸ List.mem_map_of_mem Comment.id hmem)
          simp [hne]
    · have hrw : resolveFirst (x :: xs) cid = x :: resolveFirst xs cid := by
        simp [resolveFirst, hx]
      rw [hrw]
      cases i with
      | zero => simp [hx]
      | succ j =>
        simp only [List.getElem?_cons_succ]
        exact ih hnd.2 j

theorem resolveFirst_viewed_frame (rs : RepoState) (cid : String) :
    ({ rs with comments := resolveFirst rs.comments cid }).viewed_files
      = rs.viewed_files := rfl

theorem scanPorts_ok (used : List Nat) :
    ∀ (n a p : Nat), scanPorts used (List.range' a n) = Except.ok p →
      a ≤ p ∧ p < a + n ∧ p ∉ used ∧
        ∀ q, a ≤ q → q < a + n → q ∉ used → p ≤ q := by
  intro n
  induction n with
  | zero => intro a p h; simp [List.range', scanPorts] at h
  | succ n ih =>
    intro a p h
    rw [List.range'_succ] at h
    by_cases ha : a ∈ used
    · simp only [scanPorts, ha, if_true] at h
      obtain ⟨h1, h2, h3, h4⟩ := ih (a + 1) p h
      refine ⟨by omega, by omega, h3, ?_⟩
      intro q hq1 hq2 hq3
      rcases Nat.eq_or_lt_of_le hq1 with he | hlt
      · exact absurd ha (he ▸ hq3)
      · exact h4 q hlt (by omega) hq3
    · simp only [scanPorts, ha, if_false, Except.ok.injEq] at h
      subst h
      exact ⟨Nat.le_refl _, by omega, ha, fun q hq1 _ _ => hq1⟩

theorem scanPorts_error (used : List Nat) :
    ∀ (n a : Nat), (∃ e, scanPorts used (List.range' a n) = Except.error e) ↔
      ∀ q, a ≤ q → q < a + n → q ∈ used := by
  intro n
  induction n with
  | zero =>
    intro a
    constructor
    · intro _ q hq1 hq2
      omega
    · intro _
      exact ⟨"No available ports in range 3000-4000", rfl⟩
  | succ n ih =>
    intro a
    rw [List.range'_succ]
    by_cases ha : a ∈ used
    · simp only [scanPorts, ha, if_true]
      rw [ih (a + 1)]
      constructor
      · intro h q hq1 hq2
        rcases Nat.eq_or_lt_of_le hq1 with he | hlt
        · exact he ▸ ha
        · exact h q hlt (by omega)
      · intro h q hq1 hq2
        exact h q (by omega) (by omega)
    · simp only [scanPorts, ha, if_false]
      constructor
      · rintro ⟨e, he⟩
        cases he
      · intro h
        exact absurd (h a (Nat.le_refl a) (by omega)) ha

theorem removeKey_eq_filter [DecidableEq α] (m : List (α × β)) (k : α) :
    removeKey m k = m.filter fun e => decide ¬(e.1 = k) := by
  induction m with
  | nil => rfl
  | cons e es ih =>
    by_cases he : e.1 = k <;> simp [removeKey, List.filter_cons, he, ih]

theorem foldl_removeKey_eq_filter [DecidableEq α] (ks : List α) :
    ∀ m : List (α × β),
      ks.foldl (fun m k => removeKey m k) m
        = m.filter fun e => decide (e.1 ∉ ks) := by
  induction ks with
  | nil => intro m; simp
  | cons k ks ih =>
    intro m
    rw [List.foldl_cons, ih (removeKey m k), removeKey_eq_filter,
      List.filter_filter]
    refine List.filter_congr fun e _ => ?_
    by_cases h1 : e.1 = k <;> by_cases h2 : e.1 ∈ ks <;>
      simp [h1, h2, List.mem_cons]

theorem eq_of_mem_of_nodupKeys [DecidableEq α] (l : List (α × β))
    (hnd : (l.map Prod.fst).Nodup) (e e' : α × β) (he : e ∈ l) (he' : e' ∈ l)
    (hk : e.1 = e'.1) : e = e' := by
  induction l with
  | nil => cases he
  | cons x xs ih =>
    rw [List.map_cons, List.nodup_cons] at hnd
    cases he with
    | head =>
      cases he' with
      | head => rfl
      | tail _ h' =>
        exact absurd (hk ▸ List.mem_map_of_mem Prod.fst h') hnd.1
    | tail _ h =>
      cases he' with
      | head =>
        exact absurd (hk ▸ List.mem_map_of_mem Prod.fst h) hnd.1
      | tail _ h' => exact ih hnd.2 h h'

theorem isFileViewed_mark (st : ViewedState) (r b c fp : String) :
    isFileViewedState (markFileViewedState st r b c fp) r b c fp = true := by
  unfold isFileViewedState markFileViewedState
  rw [lookupScope_update3]
  by_cases h : fp ∈ ((lookupScope st r b c).getD RepoState.empty).viewed_files <;>
    simp [h]

theorem isFileViewed_unmark (st : ViewedState) (r b c fp : String) :
    isFileViewedState (unmarkFileViewedState st r b c fp) r b c fp = false := by
  unfold isFileViewedState unmarkFileViewedState
  rw [lookupScope_set3]
  cases h : lookupScope st r b c with
  | none => rfl
  | some rs => simp [List.mem_filter]

theorem markFileViewedState_idem (st : ViewedState) (r b c fp : String) :
    markFileViewedState (markFileViewedState st r b c fp) r b c fp
      = markFileViewedState st r b c fp := by
  unfold markFileViewedState
  apply update3_comp
  intro rs
  by_cases h : fp ∈ rs.viewed_files <;> simp [h]

theorem unmarkFileViewedState_idem (st : ViewedState) (r b c fp : String) :
    unmarkFileViewedState (unmarkFileViewedState st r b c fp) r b c fp
      = unmarkFileViewedState st r b c fp := by
  unfold unmarkFileViewedState
  apply set3_comp
  intro rs
  simp [List.filter_filter]

theorem resolveCommentState_idem (st : ViewedState) (r b c cid : String) :
    resolveCommentState (resolveCommentState st r b c cid) r b c cid
      = resolveCommentState st r b c cid := by
  unfold resolveCommentState
  apply set3_comp
  intro rs
  simp [resolveFirst_idem]

theorem getCommentsState_eq (st : ViewedState) (r b c : String) :
    getCommentsState st r b c none
      = ((lookupScope st r b c).map RepoState.comments).getD [] := by
  unfold getCommentsState
  cases lookupScope st r b c <;> rfl

theorem getCommentsState_filter_eq (st : ViewedState) (r b c fp : String) :
    getCommentsState st r b c (some fp)
      = (getCommentsState st r b c none).filter fun cm => cm.file_path = fp := by
  unfold getCommentsState
  cases lookupScope st r b c <;> rfl

theorem getComments_resolve (st : ViewedState) (r b c cid : String) :
    getCommentsState (resolveCommentState st r b c cid) r b c none
      = resolveFirst (getCommentsState st r b c none) cid := by
  rw [getCommentsState_eq, getCommentsState_eq]
  unfold resolveCommentState
  rw [lookupScope_set3]
  cases h : lookupScope st r b c with
  | none => rfl
  | some rs => rfl

theorem getComments_addComment (st : ViewedState) (r b c fp : String)
    (ln : Option Nat) (tx : String) (now : Nat) :
    getCommentsState (addCommentState st r b c fp ln tx now).2 r b c none
      = getCommentsState st r b c none
          ++ [(addCommentState st r b c fp ln tx now).1] := by
  rw [getCommentsState_eq, getCommentsState_eq]
  unfold addCommentState
  simp only []
  rw [lookupScope_update3]
  cases h : lookupScope st r b c with
  | none => rfl
  | some rs => rfl

theorem resolveCommentState_of_not_found (st : ViewedState) (r b c cid : String)
    (h : ∀ cm ∈ getCommentsState st r b c none, cm.id ≠ cid) :
    resolveCommentState st r b c cid = st := by
  rw [getCommentsState_eq] at h
  cases st with
  | mk repos =>
    unfold resolveCommentState
    congr 1
    apply setFirst_eq_self
    intro bm hbm
    apply setFirst_eq_self
    intro cm hcm
    apply setFirst_eq_self
    intro rs hrs
    have hsc : lookupScope ⟨repos⟩ r b c = some rs := by
      unfold lookupScope
      simp [hbm, hcm, hrs]
    rw [hsc] at h
    have hall : ∀ x ∈ rs.comments, x.id ≠ cid := by
      intro x hx
      exact h x (by simpa using hx)
    rw [resolveFirst_of_not_mem rs.comments cid hall]

theorem markInner_comments (fp : String) (rs : RepoState) :
    (if fp ∈ rs.viewed_files then rs
     else { rs with viewed_files := rs.viewed_files ++ [fp] }).comments
      = rs.comments := by
  by_cases h : fp ∈ rs.viewed_files <;> simp [h]

theorem scopeComments_via_getD (st : ViewedState) (r b c : String) :
    scopeComments st r b c
      = ((lookupScope st r b c).getD RepoState.empty).comments := by
  unfold scopeComments
  cases lookupScope st r b c <;> rfl

theorem scopeComments_eq_getComments (st : ViewedState) (r b c : String) :
    scopeComments st r b c = getCommentsState st r b c none :=
  (getCommentsState_eq st r b c).symm

theorem addCommentState_snd (st : ViewedState) (r b c fp : String)
    (ln : Option Nat) (tx : String) (now : Nat) :
    (addCommentState st r b c fp ln tx now).2
      = ⟨updateEntry st.repos r [] fun bm =>
          updateEntry bm b [] fun cm =>
            updateEntry cm c RepoState.empty fun rs =>
              { rs with comments :=
                  rs.comments ++ [(addCommentState st r b c fp ln tx now).1] }⟩ :=
  rfl

theorem scopeComments_mark (st : ViewedState) (r b c fp r' b' c' : String) :
    scopeComments (markFileViewedState st r b c fp) r' b' c'
      = scopeComments st r' b' c' := by
  by_cases h : r' = r ∧ b' = b ∧ c' = c
  · obtain ⟨h1, h2, h3⟩ := h
    subst h1; subst h2; subst h3
    rw [scopeComments_via_getD, scopeComments_via_getD]
    unfold markFileViewedState
    rw [lookupScope_update3, Option.getD_some]
    exact markInner_comments fp _
  · unfold scopeComments markFileViewedState
    rw [lookupScope_update3_ne st r b c _ r' b' c' h]

theorem scopeComments_unmark (st : ViewedState) (r b c fp r' b' c' : String) :
    scopeComments (unmarkFileViewedState st r b c fp) r' b' c'
      = scopeComments st r' b' c' := by
  by_cases h : r' = r ∧ b' = b ∧ c' = c
  · obtain ⟨h1, h2, h3⟩ := h
    subst h1; subst h2; subst h3
    unfold scopeComments unmarkFileViewedState
    rw [lookupScope_set3]
    cases lookupScope st r' b' c' <;> rfl
  · unfold scopeComments unmarkFileViewedState
    rw [lookupScope_set3_ne st r b c _ r' b' c' h]

theorem scopeComments_add (st : ViewedState) (r b c fp : String)
    (ln : Option Nat) (tx : String) (now : Nat) (r' b' c' : String) :
    scopeComments (addCommentState st r b c fp ln tx now).2 r' b' c'
      = if r' = r ∧ b' = b ∧ c' = c
        then scopeComments st r' b' c'
               ++ [(addCommentState st r b c fp ln tx now).1]
        else scopeComments st r' b' c' := by
  by_cases h : r' = r ∧ b' = b ∧ c' = c
  · obtain ⟨h1, h2, h3⟩ := h
    subst h1; subst h2; subst h3
    rw [if_pos ⟨rfl, rfl, rfl⟩, scopeComments_eq_getComments,
      scopeComments_eq_getComments]
    exact getComments_addComment st r' b' c' fp ln tx now
  · rw [if_neg h, addCommentState_snd]
    unfold scopeComments
    rw [lookupScope_update3_ne st r b c _ r' b' c' h]

theorem scopeComments_resolve (st : ViewedState) (r b c cid r' b' c' : String) :
    scopeComments (resolveCommentState st r b c cid) r' b' c'
      = if r' = r ∧ b' = b ∧ c' = c
        then resolveFirst (scopeComments st r' b' c') cid
        else scopeComments st r' b' c' := by
  by_cases h : r' = r ∧ b' = b ∧ c' = c
  · obtain ⟨h1, h2, h3⟩ := h
    subst h1; subst h2; subst h3
    rw [if_pos ⟨rfl, rfl, rfl⟩, scopeComments_eq_getComments,
      scopeComments_eq_getComments]
    exact getComments_resolve st r' b' c' cid
  · rw [if_neg h]
    unfold scopeComments resolveCommentState
    rw [lookupScope_set3_ne st r b c _ r' b' c' h]

theorem commentLE_trans {x y z : Comment} (h1 : commentLE x y)
    (h2 : commentLE y z) : commentLE x z := by
  rcases h1 with h1 | h1
  · rw [h1] at h2
    exact h2
  · rw [h1] at h2
    rcases h2 with h2 | h2
    · rw [h2]
      exact Or.inr rfl
    · rw [h2]
      exact Or.inr rfl

theorem commentsEvolve_refl (l : List Comment) : commentsEvolve l l :=
  fun _ h => ⟨h, Or.inl rfl⟩

theorem commentsEvolve_trans {l₁ l₂ l₃ : List Comment}
    (h1 : commentsEvolve l₁ l₂) (h2 : commentsEvolve l₂ l₃) :
    commentsEvolve l₁ l₃ := by
  intro i h
  obtain ⟨h', hle⟩ := h1 i h
  obtain ⟨h'', hle'⟩ := h2 i h'
  exact ⟨h'', commentLE_trans hle hle'⟩

theorem commentsEvolve_append (l l₂ : List Comment) :
    commentsEvolve l (l ++ l₂) := by
  intro i h
  refine ⟨by rw [List.length_append]; omega, ?_⟩
  refine Or.inl ?_
  rw [List.get_eq_getElem, List.get_eq_getElem]
  exact List.getElem_append_left h

theorem commentsEvolve_resolveFirst (l : List Comment) (cid : String) :
    commentsEvolve l (resolveFirst l cid) := by
  induction l with
  | nil => intro i h; simp at h
  | cons x xs ih =>
    by_cases hx : x.id = cid
    · have hrw : resolveFirst (x :: xs) cid = { x with resolved := true } :: xs := by
        simp [resolveFirst, hx]
      rw [hrw]
      intro i h
      cases i with
      | zero => exact ⟨Nat.succ_pos _, Or.inr rfl⟩
      | succ j => exact ⟨h, Or.inl rfl⟩
    · have hrw : resolveFirst (x :: xs) cid = x :: resolveFirst xs cid := by
        simp [resolveFirst, hx]
      rw [hrw]
      intro i h
      cases i with
      | zero => exact ⟨Nat.succ_pos _, Or.inl rfl⟩
      | succ j =>
        have hj : j < xs.length := Nat.lt_of_succ_lt_succ h
        obtain ⟨h', hle⟩ := ih j hj
        exact ⟨Nat.succ_lt_succ h', hle⟩

theorem applyOp_scopeComments_evolve (sm : StateManager) (op : StoreOp)
    (r b c : String) :
    commentsEvolve (scopeComments sm.state r b c)
      (scopeComments (applyOp sm op).state r b c) := by
  cases op with
  | mark s r0 b0 c0 fp =>
    show commentsEvolve _
      (scopeComments (markFileViewedState sm.state r0 b0 c0 fp) r b c)
    rw [scopeComments_mark]
    exact commentsEvolve_refl _
  | unmark s r0 b0 c0 fp =>
    show commentsEvolve _
      (scopeComments (unmarkFileViewedState sm.state r0 b0 c0 fp) r b c)
    rw [scopeComments_unmark]
    exact commentsEvolve_refl _
  | add s r0 b0 c0 fp ln tx now =>
    show commentsEvolve _
      (scopeComments (addCommentState sm.state r0 b0 c0 fp ln tx now).2 r b c)
    rw [scopeComments_add]
    by_cases h : r = r0 ∧ b = b0 ∧ c = c0
    · rw [if_pos h]
      exact commentsEvolve_append _ _
    · rw [if_neg h]
      exact commentsEvolve_refl _
  | resolve s r0 b0 c0 cid =>
    show commentsEvolve _
      (scopeComments (resolveCommentState sm.state r0 b0 c0 cid) r b c)
    rw [scopeComments_resolve]
    by_cases h : r = r0 ∧ b = b0 ∧ c = c0
    · rw [if_pos h]
      exact commentsEvolve_resolveFirst _ _
    · rw [if_neg h]
      exact commentsEvolve_refl _

/-- Claim C1: the spec requires the liveness probe of is_daemon_running to
send only the zero/no-op signal and never a terminating one.  The source
(src/daemon.rs line 103) instead passes Signal::SIGTERM, the terminating
signal that stop_daemon also uses, so the probe disturbs the very process
it checks.  This theorem evaluates the signal number the code sends. -/
theorem is_daemon_running_sends_sigterm :
    is_daemon_running_signal = SIGTERM ∧ SIGTERM = 15 ∧ NULL_SIGNAL = 0 ∧
      is_daemon_running_signal ≠ NULL_SIGNAL :=
  ⟨rfl, rfl, rfl, by decide⟩

/-- Claim C3: find_available_port returns the smallest port of the range
3000 to 3999 that is not among the ports recorded in the registry, never a
recorded one, and fails if and only if every port of the range is
occupied. -/
theorem find_available_port_correct (reg : DaemonRegistry) :
    (∀ p, find_available_port reg = Except.ok p →
      3000 ≤ p ∧ p ≤ 3999 ∧ p ∉ usedPorts reg ∧
        ∀ q, 3000 ≤ q → q ≤ 3999 → q ∉ usedPorts reg → p ≤ q) ∧
    ((∃ e, find_available_port reg = Except.error e) ↔
      ∀ q, 3000 ≤ q → q ≤ 3999 → q ∈ usedPorts reg) := by
  constructor
  · intro p h
    unfold find_available_port at h
    obtain ⟨h1, h2, h3, h4⟩ := scanPorts_ok (usedPorts reg) 1000 3000 p h
    exact ⟨h1, by omega, h3, fun q hq1 hq2 hq3 => h4 q hq1 (by omega) hq3⟩
  · unfold find_available_port
    rw [scanPorts_error (usedPorts reg) 1000 3000]
    constructor
    · intro h q hq1 hq2
      exact h q hq1 (by omega)
    · intro h q hq1 hq2
      exact h q hq1 (by omega)

/-- Witness for C3 at a registry occupying port 3000: the scan returns
port 3001, which lies in the range and is not among the used ports. -/
theorem find_available_port_correct_witness :
    3000 ≤ 3001 ∧ 3001 ≤ 3999 ∧ (3001 : Nat) ∉ usedPorts regW :=
  ⟨((find_available_port_correct regW).1 3001 rfl).1,
   ((find_available_port_correct regW).1 3001 rfl).2.1,
   ((find_available_port_correct regW).1 3001 rfl).2.2.1⟩

/-- Claim C10: add_comment panics (modelled as none) exactly when the
clock reads earlier than the Unix epoch; at or after the epoch the
timestamp computation succeeds and the operation is panic-free. -/
theorem add_comment_clock_panic (saveOk : Bool) (sm : StateManager)
    (r b c fp : String) (ln : Option Nat) (tx : String) (clock : Int) :
    (clock < 0 → add_comment_clocked saveOk sm r b c fp ln tx clock = none) ∧
    (0 ≤ clock → add_comment_clocked saveOk sm r b c fp ln tx clock
        = some (add_comment saveOk sm r b c fp ln tx clock.toNat)) := by
  constructor
  · intro h
    unfold add_comment_clocked duration_since_epoch
    rw [if_pos h]
  · intro h
    unfold add_comment_clocked duration_since_epoch
    rw [if_neg (by omega)]

/-- Witness for C10: the clock reading -1 panics, the reading 5 succeeds
with timestamp 5. -/
theorem add_comment_clock_panic_witness :
    add_comment_clocked true ⟨⟨[]⟩⟩ "r" "b" "c" "f" none "t" (-1) = none ∧
    add_comment_clocked true ⟨⟨[]⟩⟩ "r" "b" "c" "f" none "t" 5
      = some (add_comment true ⟨⟨[]⟩⟩ "r" "b" "c" "f" none "t" (Int.toNat 5)) :=
  ⟨(add_comment_clock_panic true ⟨⟨[]⟩⟩ "r" "b" "c" "f" none "t" (-1)).1
      (by decide),
   (add_comment_clock_panic true ⟨⟨[]⟩⟩ "r" "b" "c" "f" none "t" 5).2
      (by decide)⟩

/-- Counterexample to claim C2 as stated: on the empty store, a
mark_file_viewed call whose save fails does return an error, yet a
subsequent is_file_viewed on the same manager reports the file as viewed,
so the observable state is not the state from before the call. -/
theorem persistence_failure_state_changes :
    (mark_file_viewed false ⟨⟨[]⟩⟩ "r" "b" "c" "f").1
      = Except.error "Failed to write state file" ∧
    is_file_viewed ⟨⟨[]⟩⟩ "r" "b" "c" "f" = Except.ok false ∧
    is_file_viewed (mark_file_viewed false ⟨⟨[]⟩⟩ "r" "b" "c" "f").2
      "r" "b" "c" "f" = Except.ok true :=
  ⟨rfl, rfl, rfl⟩

/-- Claim C2 as amended: when the write to durable storage fails, every
store mutation returns an error, but the in-memory change has already been
applied and is observable afterwards: the post-call manager is identical
to the one a successful save would have produced. -/
theorem persistence_failure_returns_error (sm : StateManager)
    (r b c fp cid : String) (ln : Option Nat) (tx : String) (now : Nat) :
    (mark_file_viewed false sm r b c fp).1
        = Except.error "Failed to write state file" ∧
    (unmark_file_viewed false sm r b c fp).1
        = Except.error "Failed to write state file" ∧
    (add_comment false sm r b c fp ln tx now).1
        = Except.error "Failed to write state file" ∧
    (resolve_comment false sm r b c cid).1
        = Except.error "Failed to write state file" ∧
    (mark_file_viewed false sm r b c fp).2
        = (mark_file_viewed true sm r b c fp).2 ∧
    (unmark_file_viewed false sm r b c fp).2
        = (unmark_file_viewed true sm r b c fp).2 ∧
    (add_comment false sm r b c fp ln tx now).2
        = (add_comment true sm r b c fp ln tx now).2 ∧
    (resolve_comment false sm r b c cid).2
        = (resolve_comment true sm r b c cid).2 :=
  ⟨rfl, rfl, rfl, rfl, rfl, rfl, rfl, rfl⟩

/-- Claim C4: after mark_file_viewed the file reads as viewed; after
unmark_file_viewed it reads as not viewed; both mutations are idempotent
on the state; and when the scope or the path is absent, is_file_viewed
returns Ok false, never an error. -/
theorem mark_unmark_viewed_correct (sm : StateManager) (r b c fp : String) :
    is_file_viewed (mark_file_viewed true sm r b c fp).2 r b c fp
        = Except.ok true ∧
    is_file_viewed (unmark_file_viewed true sm r b c fp).2 r b c fp
        = Except.ok false ∧
    (mark_file_viewed true (mark_file_viewed true sm r b c fp).2 r b c fp).2
        = (mark_file_viewed true sm r b c fp).2 ∧
    (unmark_file_viewed true (unmark_file_viewed true sm r b c fp).2
        r b c fp).2
        = (unmark_file_viewed true sm r b c fp).2 ∧
    (lookupScope sm.state r b c = none →
      is_file_viewed sm r b c fp = Except.ok false) ∧
    (∀ rs, lookupScope sm.state r b c = some rs → fp ∉ rs.viewed_files →
      is_file_viewed sm r b c fp = Except.ok false) := by
  refine ⟨?_, ?_, ?_, ?_, ?_, ?_⟩
  · show Except.ok (isFileViewedState
        (markFileViewedState sm.state r b c fp) r b c fp) = _
    rw [isFileViewed_mark]
  · show Except.ok (isFileViewedState
        (unmarkFileViewedState sm.state r b c fp) r b c fp) = _
    rw [isFileViewed_unmark]
  · show (⟨markFileViewedState
        (markFileViewedState sm.state r b c fp) r b c fp⟩ : StateManager)
      = ⟨markFileViewedState sm.state r b c fp⟩
    rw [markFileViewedState_idem]
  · show (⟨unmarkFileViewedState
        (unmarkFileViewedState sm.state r b c fp) r b c fp⟩ : StateManager)
      = ⟨unmarkFileViewedState sm.state r b c fp⟩
    rw [unmarkFileViewedState_idem]
  · intro h
    unfold is_file_viewed isFileViewedState
    rw [h]
    rfl
  · intro rs hrs hmem
    unfold is_file_viewed isFileViewedState
    rw [hrs]
    simp [hmem]

/-- Witness for C4: on a store whose only scope ("r","b","c") has viewed
file "g", the unseen path "f" reads as not viewed, and the absent scope
("x","b","c") reads as not viewed. -/
theorem mark_unmark_viewed_correct_witness :
    is_file_viewed smW "r" "b" "c" "f" = Except.ok false ∧
    is_file_viewed smW "x" "b" "c" "f" = Except.ok false :=
  ⟨(mark_unmark_viewed_correct smW "r" "b" "c" "f").2.2.2.2.2
      ⟨["g"], []⟩ rfl (by decide),
   (mark_unmark_viewed_correct smW "x" "b" "c" "f").2.2.2.2.1 rfl⟩

/-- Claim C5: add_comment creates a comment with resolved false, the
supplied file path, line number and text, the clock reading as timestamp,
and the id formatted as timestamp dash the number of comments already in
the scope; the comment is appended at the end of the scope comment list
(scope levels created on demand) and returned. -/
theorem add_comment_correct (st : ViewedState) (r b c fp : String)
    (ln : Option Nat) (tx : String) (now : Nat) :
    (addCommentState st r b c fp ln tx now).1.resolved = false ∧
    (addCommentState st r b c fp ln tx now).1.file_path = fp ∧
    (addCommentState st r b c fp ln tx now).1.line_number = ln ∧
    (addCommentState st r b c fp ln tx now).1.text = tx ∧
    (addCommentState st r b c fp ln tx now).1.timestamp = now ∧
    (addCommentState st r b c fp ln tx now).1.id
        = toString now ++ "-"
            ++ toString (getCommentsState st r b c none).length ∧
    getCommentsState (addCommentState st r b c fp ln tx now).2 r b c none
        = getCommentsState st r b c none
            ++ [(addCommentState st r b c fp ln tx now).1] ∧
    (add_comment true ⟨st⟩ r b c fp ln tx now).1
        = Except.ok (addCommentState st r b c fp ln tx now).1 := by
  refine ⟨rfl, rfl, rfl, rfl, rfl, ?_, ?_, rfl⟩
  · show mkCommentId now
        ((lookupScope st r b c).getD RepoState.empty).comments.length = _
    rw [getCommentsState_eq]
    unfold mkCommentId
    cases lookupScope st r b c <;> rfl
  · exact getComments_addComment st r b c fp ln tx now

/-- Claim C7: get_comments without a filter returns the scope comments in
insertion order; with a file filter it returns exactly the subsequence of
comments on that file, order preserved; an absent scope yields Ok with the
empty list, never an error. -/
theorem get_comments_correct (sm : StateManager) (r b c fp : String) :
    get_comments sm r b c (some fp)
        = Except.ok ((getCommentsState sm.state r b c none).filter
            fun cm => cm.file_path = fp) ∧
    get_comments sm r b c none
        = Except.ok (getCommentsState sm.state r b c none) ∧
    List.Sublist (getCommentsState sm.state r b c (some fp))
      (getCommentsState sm.state r b c none) ∧
    (∀ cm, cm ∈ getCommentsState sm.state r b c (some fp) ↔
      cm ∈ getCommentsState sm.state r b c none ∧ cm.file_path = fp) ∧
    (lookupScope sm.state r b c = none →
      get_comments sm r b c none = Except.ok [] ∧
        get_comments sm r b c (some fp) = Except.ok []) := by
  refine ⟨?_, rfl, ?_, ?_, ?_⟩
  · show Except.ok (getCommentsState sm.state r b c (some fp)) = _
    rw [getCommentsState_filter_eq]
  · rw [getCommentsState_filter_eq]
    exact List.filter_sublist _
  · intro cm
    rw [getCommentsState_filter_eq]
    simp [List.mem_filter]
  · intro h
    unfold get_comments getCommentsState
    rw [h]
    exact ⟨rfl, rfl⟩

/-- Witness for C7 at the empty store, an absent scope: both queries
return Ok with the empty list. -/
theorem get_comments_correct_witness :
    get_comments ⟨⟨[]⟩⟩ "r" "b" "c" none = Except.ok [] ∧
    get_comments ⟨⟨[]⟩⟩ "r" "b" "c" (some "f") = Except.ok [] :=
  (get_comments_correct ⟨⟨[]⟩⟩ "r" "b" "c" "f").2.2.2.2 rfl

/-- Claim C6: resolve_comment sets resolved true on the comment with the
given id (ids unique in the scope), changes no other field and no other
comment anywhere in the store, is idempotent, and is a silent no-op when
no comment with that id exists in the scope. -/
theorem resolve_comment_correct (sm : StateManager) (r b c cid : String)
    (hnd : ((getCommentsState sm.state r b c none).map Comment.id).Nodup) :
    (resolve_comment true sm r b c cid).1 = Except.ok () ∧
    (∀ i : Nat,
      (getCommentsState (resolve_comment true sm r b c cid).2.state
          r b c none)[i]?
        = ((getCommentsState sm.state r b c none)[i]?).map fun cm =>
            if cm.id = cid then { cm with resolved := true } else cm) ∧
    (resolve_comment true (resolve_comment true sm r b c cid).2 r b c cid).2
        = (resolve_comment true sm r b c cid).2 ∧
    ((∀ cm ∈ getCommentsState sm.state r b c none, cm.id ≠ cid) →
      (resolve_comment true sm r b c cid).2 = sm) ∧
    (∀ r' b' c', ¬(r' = r ∧ b' = b ∧ c' = c) →
      lookupScope (resolve_comment true sm r b c cid).2.state r' b' c'
        = lookupScope sm.state r' b' c') ∧
    (lookupScope (resolve_comment true sm r b c cid).2.state r b c).map
        RepoState.viewed_files
      = (lookupScope sm.state r b c).map RepoState.viewed_files := by
  refine ⟨rfl, ?_, ?_, ?_, ?_, ?_⟩
  · intro i
    show (getCommentsState (resolveCommentState sm.state r b c cid)
        r b c none)[i]? = _
    rw [getComments_resolve]
    exact resolveFirst_getElem _ cid hnd i
  · show (⟨resolveCommentState
        (resolveCommentState sm.state r b c cid) r b c cid⟩ : StateManager)
      = ⟨resolveCommentState sm.state r b c cid⟩
    rw [resolveCommentState_idem]
  · intro h
    show (⟨resolveCommentState sm.state r b c cid⟩ : StateManager) = sm
    rw [resolveCommentState_of_not_found sm.state r b c cid h]
  · intro r' b' c' hne
    show lookupScope (resolveCommentState sm.state r b c cid) r' b' c' = _
    unfold resolveCommentState
    exact lookupScope_set3_ne sm.state r b c _ r' b' c' hne
  · show (lookupScope (resolveCommentState sm.state r b c cid) r b c).map _
        = _
    unfold resolveCommentState
    rw [lookupScope_set3]
    cases lookupScope sm.state r b c <;> rfl

/-- Witness for C6 on a store holding one comment of id "7-0": resolving
that id flips exactly its resolved flag at index 0. -/
theorem resolve_comment_correct_witness :
    (getCommentsState (resolve_comment true smC "r" "b" "c" "7-0").2.state
        "r" "b" "c" none)[0]?
      = ((getCommentsState smC.state "r" "b" "c" none)[0]?).map fun cm =>
          if cm.id = "7-0" then { cm with resolved := true } else cm :=
  (resolve_comment_correct smC "r" "b" "c" "7-0" (by decide)).2.1 0

/-- Claim C8: for every liveness oracle, cleanup_stale_daemons keeps
exactly the registry entries whose pid passes the probe, removes all
others unchanged, and calls save_registry exactly once. -/
theorem cleanup_stale_daemons_correct (alive : Nat → Bool)
    (reg : DaemonRegistry) (hnd : (reg.daemons.map Prod.fst).Nodup) :
    (cleanup_stale_daemons alive reg).1.daemons
        = reg.daemons.filter (fun e => alive e.2.pid) ∧
    (cleanup_stale_daemons alive reg).2 = 1 := by
  refine ⟨?_, rfl⟩
  show ((reg.daemons.filter fun e => !alive e.2.pid).map fun e => e.1).foldl
      (fun m k => removeKey m k) reg.daemons = _
  rw [foldl_removeKey_eq_filter]
  refine List.filter_congr fun e he => ?_
  cases ha : alive e.2.pid with
  | true =>
    simp only [decide_eq_true_eq]
    intro hmem
    rw [List.mem_map] at hmem
    obtain ⟨e', he', hk⟩ := hmem
    rw [List.mem_filter] at he'
    obtain ⟨hel, hal⟩ := he'
    have he2 : e' = e := eq_of_mem_of_nodupKeys reg.daemons hnd e' e hel he hk
    rw [he2, ha] at hal
    cases hal
  | false =>
    simp only [decide_eq_false_iff_not, not_not]
    refine List.mem_map_of_mem _ ?_
    rw [List.mem_filter]
    exact ⟨he, by rw [ha]; rfl⟩

/-- Witness for C8: a registry with daemons of pid 1 and pid 2, under the
oracle declaring only pid 1 alive, keeps exactly the pid-1 entry and saves
once. -/
theorem cleanup_stale_daemons_correct_witness :
    (cleanup_stale_daemons (fun p => p == 1) regW2).1.daemons
        = regW2.daemons.filter (fun e => (fun p => p == 1) e.2.pid) ∧
    (cleanup_stale_daemons (fun p => p == 1) regW2).2 = 1 :=
  cleanup_stale_daemons_correct (fun p => p == 1) regW2 (by decide)

/-- Claim C9: across every sequence of store operations and at every
scope, comments are never removed (each stays at its index) and the
resolved flag never reverts from true to false: the new list evolves from
the old one by commentLE steps only. -/
theorem store_comments_monotone (ops : List StoreOp) (sm : StateManager)
    (r b c : String) :
    commentsEvolve (scopeComments sm.state r b c)
      (scopeComments (applyOps sm ops).state r b c) := by
  induction ops generalizing sm with
  | nil => exact commentsEvolve_refl _
  | cons op ops ih =>
    exact commentsEvolve_trans (applyOp_scopeComments_evolve sm op r b c)
      (ih (applyOp sm op))

/-- Witness application of C9 on a concrete one-operation sequence. -/
theorem store_comments_monotone_witness :
    commentsEvolve (scopeComments smC.state "r" "b" "c")
      (scopeComments
        (applyOps smC [StoreOp.resolve true "r" "b" "c" "7-0"]).state
        "r" "b" "c") :=
  store_comments_monotone [StoreOp.resolve true "r" "b" "c" "7-0"] smC
    "r" "b" "c"
